import Mathlib

/-!
Verification of the process-supervision core (`papa/server/proc.py`).

The Python source is shallowly embedded: pure fragments become Lean
functions, the stateful `OutputQueue` becomes explicit state passing on a
structure, fallible code returns `Except`/`Option`.  Timestamps produced by
`time()` are modelled as naturals supplied by the caller (the code only
compares them and prints them).  Python byte strings are `List Nat`,
Python `int` is `Int`.  The per-object `threading.Lock` fields guard the
mutations modelled here as pure state transitions, so they have no
residue in the embedding.
-/

/-- Payload carried by one queue item: `bytes` for STDOUT/STDERR events,
the integer exit status for CLOSED events, or Python `None` (the `data`
default of `OutputQueue.add`). -/
inductive OData where
  | obytes (bs : List Nat)
  | ostatus (s : Int)
  | onone
deriving DecidableEq, Repr

/-- Python `len(data)` as used by `OutputQueue.add` accounting.  In every run the
code takes `len` only of byte payloads; non-byte payloads are given length
0 (Python would raise `TypeError` on them, a state the theorems exclude via
the `AddOp.wf` discipline below). -/
def OData.len : OData → Nat
  | .obytes bs => bs.length
  | .ostatus _ => 0
  | .onone => 0

/-- Python truthiness of the `data` argument (`if ... and data:`). -/
def OData.truthy : OData → Bool
  | .obytes bs => !bs.isEmpty
  | .ostatus s => s != 0
  | .onone => false

/-- The raw bytes of a payload (used when the watch protocol emits the
payload frame). -/
def OData.bytes : OData → List Nat
  | .obytes bs => bs
  | _ => []

/-- Source `OutputQueue.Item = namedtuple("Item", "type timestamp data")`. -/
structure Item where
  type : Int
  timestamp : Nat
  data : OData
deriving DecidableEq, Repr

/-- Constant `OutputQueue.STDOUT = 0`. -/
def OutputQueue.STDOUT : Int := 0

/-- Constant `OutputQueue.STDERR = 1`. -/
def OutputQueue.STDERR : Int := 1

/-- Constant `OutputQueue.CLOSED = -1`. -/
def OutputQueue.CLOSED : Int := -1

/-- State of one `OutputQueue`: the capacity `bufsize`, the deque `q`
(front = oldest), and the running byte counter `_used`. -/
structure OutputQueue where
  bufsize : Int
  q : List Item
  used : Int
deriving DecidableEq, Repr

/-- Constructor `OutputQueue.__init__`: empty deque, `_used = 0`. -/
def OutputQueue.init (bufsize : Int) : OutputQueue :=
  ⟨bufsize, [], 0⟩

/-- The eviction loop of `OutputQueue.add`:
`while self._used > self.bufsize: first = self.q.popleft(); self._used -= len(first.data)`. -/
def evictLoop (bufsize : Int) : List Item → Int → List Item × Int
  | [], used => ([], used)
  | first :: rest, used =>
    if bufsize < used then evictLoop bufsize rest (used - (first.data.len : Int))
    else (first :: rest, used)

/-- Method `OutputQueue.add(output_type, data)`, with the wall-clock timestamp
passed in explicitly. -/
def OutputQueue.add (oq : OutputQueue) (output_type : Int) (timestamp : Nat)
    (data : OData) : OutputQueue :=
  let data_tuple : Item := ⟨output_type, timestamp, data⟩
  if output_type != OutputQueue.CLOSED && data.truthy then
    if oq.bufsize ≤ (data.len : Int) then
      { oq with q := [data_tuple], used := (data.len : Int) }
    else
      let p := evictLoop oq.bufsize oq.q (oq.used + (data.len : Int))
      { oq with q := p.1 ++ [data_tuple], used := p.2 }
  else
    { oq with q := oq.q ++ [data_tuple] }

/-- Method `OutputQueue.retrieve`: `(0, None)` on an empty queue, otherwise the
last timestamp together with the whole retained list. -/
def OutputQueue.retrieve (oq : OutputQueue) : Nat × Option (List Item) :=
  match oq.q.getLast? with
  | some last => (last.timestamp, some oq.q)
  | none => (0, none)

/-- The trim loop of `OutputQueue.remove(timestamp)`:
`while q and q[0].timestamp <= timestamp: q.popleft()`. -/
def removeLoop : List Item → Nat → List Item
  | [], _ => []
  | first :: rest, t => if first.timestamp ≤ t then removeLoop rest t else first :: rest

/-- Method `OutputQueue.remove(timestamp)`.  Note that the source never adjusts
`_used` here. -/
def OutputQueue.remove (oq : OutputQueue) (timestamp : Nat) : OutputQueue :=
  { oq with q := removeLoop oq.q timestamp }

/-- Method `OutputQueue.__len__`. -/
def OutputQueue.qlen (oq : OutputQueue) : Nat :=
  oq.q.length

/-- One call to `OutputQueue.add`: the event type, the `time()` value at
the call, and the payload. -/
structure AddOp where
  type : Int
  timestamp : Nat
  data : OData
deriving DecidableEq, Repr

/-- Shape discipline of the two real call sites of `add`
(`Process._watch`): CLOSED events carry the integer exit status, STDOUT
and STDERR events carry bytes. -/
def AddOp.wf (op : AddOp) : Bool :=
  if op.type = OutputQueue.CLOSED then
    match op.data with
    | .ostatus _ => true
    | _ => false
  else
    match op.data with
    | .obytes _ => true
    | _ => false

/-- Apply a sequence of `add` calls to a queue, oldest first. -/
def OutputQueue.applyOps (oq : OutputQueue) (ops : List AddOp) : OutputQueue :=
  ops.foldl (fun acc op => acc.add op.type op.timestamp op.data) oq

/-- Total payload bytes of the retained events (CLOSED events contribute
0, matching their exclusion from the `_used` accounting). -/
def payloadSum (q : List Item) : Nat :=
  (q.map fun i => i.data.len).sum

/-- The state invariant `OutputQueue.add` actually maintains: `_used` is
the retained payload byte total and is bounded by `bufsize`, except while
a single oversize event (payload of at least `bufsize` bytes) sits at the
front, followed only by events with no payload bytes. -/
def goodState (oq : OutputQueue) : Prop :=
  oq.used = (payloadSum oq.q : Int) ∧
  (oq.used ≤ oq.bufsize ∨
    ∃ big rest, oq.q = big :: rest ∧ oq.bufsize ≤ (big.data.len : Int) ∧
      (∀ x ∈ rest, x.data.len = 0) ∧ oq.used = (big.data.len : Int))

/-- Claim C1 exactly as stated: with `bufsize > 0`, after every add the
used byte count is at most `bufsize`, except that an add whose own payload
measures at least `bufsize` leaves exactly that one event retained with
`used` equal to its length. -/
def C1Claim : Prop :=
  ∀ (bufsize : Int), 0 < bufsize →
  ∀ (ops : List AddOp) (op : AddOp), (∀ o ∈ ops ++ [op], o.wf = true) →
    ((OutputQueue.init bufsize).applyOps (ops ++ [op])).used ≤ bufsize ∨
    (bufsize ≤ (op.data.len : Int) ∧
      ((OutputQueue.init bufsize).applyOps (ops ++ [op])).q =
        [⟨op.type, op.timestamp, op.data⟩] ∧
      ((OutputQueue.init bufsize).applyOps (ops ++ [op])).used = (op.data.len : Int))

/-- Oversize STDOUT write used by the C1 counterexample: 7 payload bytes
against a 5-byte buffer. -/
def c1big : AddOp := ⟨OutputQueue.STDOUT, 0, .obytes [1, 2, 3, 4, 5, 6, 7]⟩

/-- The CLOSED event that follows it, as `Process._watch` always appends. -/
def c1closed : AddOp := ⟨OutputQueue.CLOSED, 1, .ostatus 0⟩

/-- Queue used by the C2 witness: two events at timestamps 1 and 3. -/
def c2oq : OutputQueue :=
  ⟨10, [⟨OutputQueue.STDOUT, 1, .obytes [65]⟩, ⟨OutputQueue.STDOUT, 3, .obytes [66]⟩], 2⟩

/-- Digit run of a Python integer literal, allowing single underscores
between digits (`int` accepts them); accumulator form. -/
def pyDigitsGo : List Char → Nat → Option Nat
  | [], acc => some acc
  | '_' :: rest, acc =>
    match rest with
    | [] => none
    | c :: rest2 =>
      if c.isDigit then pyDigitsGo rest2 (acc * 10 + (c.toNat - 48)) else none
  | c :: rest, acc =>
    if c.isDigit then pyDigitsGo rest (acc * 10 + (c.toNat - 48)) else none

/-- A non-empty digit run (with optional grouping underscores). -/
def pyDigits : List Char → Option Nat
  | [] => none
  | c :: rest => if c.isDigit then pyDigitsGo rest (c.toNat - 48) else none

/-- Whitespace stripping as `int()` performs on both ends. -/
def pyStrip (cs : List Char) : List Char :=
  ((cs.dropWhile fun c => c.isWhitespace).reverse.dropWhile
    fun c => c.isWhitespace).reverse

/-- Python `int(s)` on a decimal string: surrounding whitespace is
stripped, an optional sign allowed; `none` models the `ValueError`. -/
def pyInt (s : String) : Option Int :=
  match pyStrip s.toList with
  | '+' :: rest => (pyDigits rest).map Int.ofNat
  | '-' :: rest => (pyDigits rest).map (fun n => -(n : Int))
  | rest => (pyDigits rest).map Int.ofNat

/-- Python `s[:-1]`. -/
def strInit (s : String) : String :=
  String.mk s.toList.dropLast

/-- Python `s[-1]` (`none` when the string is empty). -/
def strLast (s : String) : Option Char :=
  s.toList.getLast?

/-- The suffix dictionary of `convert_size_string_to_bytes`:
`{"g": 1073741824, "m": 1048576, "k": 1024}`, looked up after `.lower()` applied;
`none` models the `KeyError`. -/
def suffixFactor (c : Char) : Option Int :=
  if c = 'g' then some 1073741824
  else if c = 'm' then some 1048576
  else if c = 'k' then some 1024
  else none

/-- Source `convert_size_string_to_bytes(s)`.  The error strings name the Python
exception that escapes the function on that path. -/
def convert_size_string_to_bytes (s : String) : Except String Int :=
  match pyInt s with
  | some n => .ok n
  | none =>
    match pyInt (strInit s) with
    | none => .error "ValueError"
    | some n =>
      match strLast s with
      | none => .error "ValueError"
      | some c =>
        match suffixFactor c.toLower with
        | some f => .ok (n * f)
        | none => .error "KeyError"

/-- One `pwd` database entry (name, uid, primary gid). -/
structure PwEntry where
  pw_name : String
  pw_uid : Int
  pw_gid : Int
deriving DecidableEq, Repr

/-- The platform user database (`pwd` module); absent lookups model
`KeyError`. -/
structure PwDb where
  getpwuid : Int → Option PwEntry
  getpwnam : String → Option PwEntry

/-- One `grp` database entry. -/
structure GrEntry where
  gr_gid : Int
deriving DecidableEq, Repr

/-- The platform group database (`grp` module). -/
structure GrDb where
  getgrgid : Int → Option GrEntry
  getgrnam : String → Option GrEntry

/-- The uid block of `Process.__init__` (lines 138-155).  `pwdDb = none`
models a platform where `import pwd` failed; an empty `uid` string is
falsy, meaning no user was requested.  Returns `(username, uid)`. -/
def resolveUser (pwdDb : Option PwDb) (uid : String) :
    Except String (Option String × Option Int) :=
  if uid ≠ "" then
    match pwdDb with
    | some db =>
      match pyInt uid with
      | some n =>
        match db.getpwuid n with
        | some e => .ok (some e.pw_name, some n)
        | none => .error (uid ++ " is not a valid user id")
      | none =>
        match db.getpwnam uid with
        | some e => .ok (some uid, some e.pw_uid)
        | none => .error (uid ++ " is not a valid user name")
    | none => .error "uid is not supported on this platform"
  else .ok (none, none)

/-- The gid block of `Process.__init__` (lines 157-174), given the already
resolved uid.  Mirrors `elif self.uid:` — the primary-group fallback runs
only when the resolved uid is truthy, i.e. non-zero. -/
def resolveGroup (pwdDb : Option PwDb) (grpDb : Option GrDb) (gid : String)
    (uidRes : Option Int) : Except String (Option Int) :=
  if gid ≠ "" then
    match grpDb with
    | some db =>
      match pyInt gid with
      | some n =>
        match db.getgrgid n with
        | some _ => .ok (some n)
        | none => .error ("No such group: " ++ gid)
      | none =>
        match db.getgrnam gid with
        | some e => .ok (some e.gr_gid)
        | none => .error ("No such group: " ++ gid)
    | none => .error "gid is not supported on this platform"
  else
    match uidRes with
    | some u =>
      if u ≠ 0 then
        match pwdDb with
        | some db =>
          match db.getpwuid u with
          | some e => .ok (some e.pw_gid)
          | none => .error "KeyError"
        | none => .error "AttributeError"
      else .ok none
    | none => .ok none

/-- The identity-resolution part of `Process.__init__`: uid block then gid
block, returning `(username, uid, gid)`. -/
def resolveIdentity (pwdDb : Option PwDb) (grpDb : Option GrDb)
    (uid gid : String) : Except String (Option String × Option Int × Option Int) :=
  match resolveUser pwdDb uid with
  | .error e => .error e
  | .ok (un, u) =>
    match resolveGroup pwdDb grpDb gid u with
    | .error e => .error e
    | .ok g => .ok (un, u, g)

/-- The `stderr` capture setting: the literal string `"stdout"` (merge
into the stdout pipe) or an integer flag. -/
inductive ErrSetting where
  | merged
  | fd (n : Int)
deriving DecidableEq, Repr

/-- Python truthiness of `self.err` (`"stdout"` is a non-empty string,
hence truthy; an int is truthy iff non-zero). -/
def ErrSetting.truthy : ErrSetting → Bool
  | .merged => true
  | .fd n => n != 0

/-- The capture-flag part of `Process.__init__` (lines 129-137): when the
parsed buffer size is non-zero, `out = int(stdout)` and `err` is either
the literal `"stdout"` or `int(stderr)`; when it is zero both capture
flags are forced to 0.  `none` models the `ValueError` of a failing
`int()`. -/
def initOutErr (bufsize : Int) (stdout stderr : String) :
    Option (Int × ErrSetting) :=
  if bufsize ≠ 0 then
    match pyInt stdout with
    | none => none
    | some o =>
      if stderr = "stdout" then some (o, .merged)
      else
        match pyInt stderr with
        | none => none
        | some e => some (o, .fd e)
  else some (0, .fd 0)

/-- A `Process` handle: the configuration stored by `__init__` plus the
runtime fields (`pid`, `running`, `_output`). -/
structure Process where
  name : String
  args : List String
  env : List (String × String)
  rlimits : List (Nat × Int)
  working_dir : Option String
  shell : Bool
  pid : Nat
  bufsize : Int
  running : Bool
  out : Int
  err : ErrSetting
  username : Option String
  uid : Option Int
  gid : Option Int
  output : Option OutputQueue
deriving DecidableEq, Repr

/-- Method `Process.__eq__` (lines 183-196): structural comparison of the
configuration fields only — `pid`, `running`, `username` and `_output` do
not participate. -/
def Process.beq (a b : Process) : Bool :=
  a.name == b.name && a.args == b.args && a.env == b.env &&
  a.rlimits == b.rlimits && a.working_dir == b.working_dir &&
  a.shell == b.shell && a.out == b.out && a.err == b.err &&
  a.bufsize == b.bufsize && a.uid == b.uid && a.gid == b.gid

/-- Method `Process.__str__`. -/
def Process.str (p : Process) : String :=
  p.name ++ " pid=" ++ toString p.pid

/-- Lookup `self._processes.get(self.name)` on the registry dict, modelled as an
association list. -/
def lookupProc (procs : List (String × Process)) (name : String) : Option Process :=
  (procs.find? (fun e => e.1 == name)).map Prod.snd

/-- Result of `Process.spawn`: the returned handle or the raised error,
the registry afterwards, and whether `Popen` was invoked (a new OS
process created). -/
structure SpawnResult where
  result : Except String Process
  processes : List (String × Process)
  createdNew : Bool
deriving Repr

/-- Method `Process.spawn` (lines 198-287), with the OS-assigned pid of a fresh
`Popen` supplied as `newPid`.  On the existing-and-equal path the method
returns `self` with `pid` copied from the registered handle and touches
neither the OS nor the registry; on the existing-and-different path it
raises; otherwise it starts the process, registers the handle and creates
its `OutputQueue`. -/
def Process.spawn (p : Process) (procs : List (String × Process))
    (newPid : Nat) : SpawnResult :=
  match lookupProc procs p.name with
  | some existing =>
    if p.beq existing then
      ⟨.ok { p with pid := existing.pid }, procs, false⟩
    else
      ⟨.error ("Process for " ++ p.name ++ " has already been created - " ++
        existing.str), procs, false⟩
  | none =>
    let started := { p with
      pid := newPid, running := true,
      output := some (OutputQueue.init p.bufsize) }
    ⟨.ok started, (p.name, started) :: procs, true⟩

/-- Whether `Popen` receives `stdout=PIPE` (`if self.out:`). -/
def popenStdoutIsPipe (out : Int) : Bool :=
  out != 0

/-- What `Popen` receives for stderr. -/
inductive StderrDest where
  | pipe
  | mergeStdout
deriving DecidableEq, Repr

/-- Branch `if self.err: stderr = STDOUT if merged else PIPE`, `none` meaning the
stream is not captured. -/
def popenStderrDest (err : ErrSetting) : Option StderrDest :=
  match err with
  | .merged => some .mergeStdout
  | .fd n => if n != 0 then some .pipe else none

/-- The two pipes `Process._watch` can multiplex over. -/
inductive PipeId where
  | pout
  | perr
deriving DecidableEq, Repr

/-- State of the capture worker model: the chunk sequences the OS will
deliver on each captured pipe (front = next to arrive; an exhausted list
means the pipe is at end-of-stream and reads return empty), the process's
`OutputQueue`, a ghost log of every `output.add` call made, and a
timestamp counter standing in for `time()`. -/
structure WatchState where
  soChunks : List (List Nat)
  seChunks : List (List Nat)
  q : OutputQueue
  log : List Item
  now : Nat
deriving DecidableEq, Repr

/-- Call `p.read()` on a non-blocking pipe that `select` reported ready: the
next arrived chunk, or empty at end-of-stream. -/
def readPipe : PipeId → WatchState → List Nat × WatchState
  | .pout, st =>
    match st.soChunks with
    | [] => ([], st)
    | c :: rest => (c, { st with soChunks := rest })
  | .perr, st =>
    match st.seChunks with
    | [] => ([], st)
    | c :: rest => (c, { st with seChunks := rest })

/-- One `output.add(...)` call of the worker, recorded in the ghost log. -/
def addOutput (st : WatchState) (ty : Int) (d : OData) : WatchState :=
  { st with q := st.q.add ty st.now d,
            log := st.log ++ [⟨ty, st.now, d⟩],
            now := st.now + 1 }

/-- The inner `for p in out:` loop of `Process._watch`: read each ready
pipe in order, appending every non-empty read; the Boolean carries the
Python variable `data` (the value of the last read), which decides whether
the outer while-loop continues. -/
def processRound : WatchState → List PipeId → Bool → WatchState × Bool
  | st, [], dataPrev => (st, dataPrev)
  | st, p :: rest, _ =>
    let r := readPipe p st
    let st2 :=
      if r.1.isEmpty then r.2
      else addOutput r.2
        (if p = PipeId.pout then OutputQueue.STDOUT else OutputQueue.STDERR)
        (.obytes r.1)
    processRound st2 rest (!r.1.isEmpty)

/-- The outer `while data:` loop, driven by a schedule: the list of
`select` results, each the set of pipes ready at that moment (arrival
timing of chunks is abstracted into this choice).  Returns the final state
and the final value of `data`; a `true` second component means the
schedule ran out while the loop would have kept going. -/
def runRounds : WatchState → List (List PipeId) → Bool → WatchState × Bool
  | st, [], dataPrev => (st, dataPrev)
  | st, r :: rs, dataPrev =>
    if dataPrev then
      let s := processRound st r dataPrev
      runRounds s.1 rs s.2
    else (st, dataPrev)

/-- The wait set built at the top of `Process._watch`: stdout when
captured, stderr when captured and not merged.  It is never mutated
afterwards. -/
def pipesOf (out : Int) (err : ErrSetting) : List PipeId :=
  (if out != 0 then [PipeId.pout] else []) ++
  (if err.truthy && !(err == ErrSetting.merged) then [PipeId.perr] else [])

/-- Outcome of one complete `Process._watch` run. -/
structure WatchResult where
  st : WatchState
  running : Bool
deriving DecidableEq, Repr

/-- Method `Process._watch`: skip the loop when no stream is captured, else run
rounds until the last read of a round was empty; then `wait()` for the
exit status, append the CLOSED event, and clear `running`.  `none` means
the supplied schedule was too short to drive the loop to its exit. -/
def watchModel (out : Int) (err : ErrSetting) (so se : List (List Nat))
    (schedule : List (List PipeId)) (bufsize : Int) (status : Int) :
    Option WatchResult :=
  let st0 : WatchState := ⟨so, se, OutputQueue.init bufsize, [], 1⟩
  if (pipesOf out err).isEmpty then
    some ⟨addOutput st0 OutputQueue.CLOSED (.ostatus status), false⟩
  else
    let r := runRounds st0 schedule true
    if r.2 then none
    else some ⟨addOutput r.1 OutputQueue.CLOSED (.ostatus status), false⟩

/-- The payload bytes of the logged events of one type, in append order. -/
def payloadsOf (ty : Int) (log : List Item) : List (List Nat) :=
  log.filterMap fun i =>
    if i.type = ty then
      match i.data with
      | .obytes bs => some bs
      | _ => none
    else none

/-- A valid `select` result: non-empty (a blocking `select` only returns
once something is ready) and drawn from the wait set. -/
def roundOk (pipes : List PipeId) (r : List PipeId) : Bool :=
  !r.isEmpty && r.all (fun p => pipes.contains p)

/-- Claim C3 exactly as stated, in its refutable observable content: on
any finite chunk delivery and any valid readiness schedule that lets the
loop finish, every delivered chunk was appended (per stream, the whole
sequence, in order) and the loop terminated only once both pipes had hit
end-of-stream. -/
def C3Claim : Prop :=
  ∀ (out : Int) (err : ErrSetting) (so se : List (List Nat))
    (schedule : List (List PipeId)) (bufsize status : Int) (res : WatchResult),
    (∀ c ∈ so, c ≠ []) → (∀ c ∈ se, c ≠ []) →
    (∀ r ∈ schedule, roundOk (pipesOf out err) r = true) →
    watchModel out err so se schedule bufsize status = some res →
    payloadsOf OutputQueue.STDOUT res.st.log = so ∧
    payloadsOf OutputQueue.STDERR res.st.log = se ∧
    res.st.soChunks = [] ∧ res.st.seChunks = []

/-- Claim C10 exactly as stated: when the buffer-size string parses to 0
(so both capture flags are forced off), no output event is ever appended
for the process. -/
def C10Claim : Prop :=
  ∀ (stdoutSel stderrSel : String) (oe : Int × ErrSetting),
    initOutErr 0 stdoutSel stderrSel = some oe →
    ∀ (so se : List (List Nat)) (schedule : List (List PipeId))
      (bufsize status : Int) (res : WatchResult),
      watchModel oe.1 oe.2 so se schedule bufsize status = some res →
      res.st.log = []

/-- Helper `utils.cast_bytes` on the str arguments of the frame formatting: the
UTF-8 bytes. -/
def cast_bytes (s : String) : List Nat :=
  s.toUTF8.toList.map (fun b => b.toNat)

/-- Python `str(item.data)` as used in the closed frame, where the data is the
integer exit status. -/
def statusStr : OData → String
  | .ostatus s => toString s
  | _ => ""

/-- The frames `_do_watch` appends to `data` for one item (lines 411-416):
one formatted header for a CLOSED event; a formatted header followed by
the raw payload for a STDOUT/STDERR event. -/
def itemFramesSrc (name : String) (item : Item) : List (List Nat) :=
  if item.type = OutputQueue.CLOSED then
    [cast_bytes ("closed:" ++ name ++ ":" ++ toString item.timestamp ++ ":" ++
      statusStr item.data)]
  else
    [cast_bytes ((if item.type = OutputQueue.STDOUT then "out" else "err") ++
      ":" ++ name ++ ":" ++ toString item.timestamp ++ ":" ++
      toString item.data.len),
     item.data.bytes]

/-- The `data` list one polling sweep of `_do_watch` accumulates over the
watched processes (retrieval plus the per-item frame appends). -/
def buildData (procs : List (String × OutputQueue)) : List (List Nat) :=
  procs.flatMap fun e =>
    match (e.2.retrieve).2 with
    | none => []
    | some l => l.flatMap (itemFramesSrc e.1)

/-- Python `sep.join(parts)` on byte strings. -/
def joinBytes (sep : List Nat) : List (List Nat) → List Nat
  | [] => []
  | [x] => x
  | x :: y :: rest => x ++ sep ++ joinBytes sep (y :: rest)

/-- The batch `_do_watch` sends when the sweep produced data:
`data.append(b"] "); out = b"\n".join(data)`. -/
def doWatchBatch (procs : List (String × OutputQueue)) : Option (List Nat) :=
  let data := buildData procs
  if data.isEmpty then none
  else some (joinBytes [10] (data ++ [cast_bytes "] "]))

/-- Modelled from the spec wording of the wire format: a frame header
`tag:process-name:timestamp:final-field`. -/
def specHeader (tag name : String) (ts : Nat) (fin : String) : List Nat :=
  cast_bytes (tag ++ ":" ++ name ++ ":" ++ toString ts ++ ":" ++ fin)

/-- Modelled from the spec wording: a STDOUT/STDERR event contributes a
header frame carrying its byte length and, in the next frame slot, the raw
payload bytes; a CLOSED event contributes a single frame carrying the exit
status. -/
def specFrames (name : String) (item : Item) : List (List Nat) :=
  if item.type = OutputQueue.CLOSED then
    [specHeader "closed" name item.timestamp (statusStr item.data)]
  else if item.type = OutputQueue.STDOUT then
    [specHeader "out" name item.timestamp (toString item.data.len), item.data.bytes]
  else
    [specHeader "err" name item.timestamp (toString item.data.len), item.data.bytes]

/-- Modelled from the spec wording: a batch is the newline-join of its
frames followed by the literal terminator line. -/
def specBatch (frames : List (List Nat)) : List Nat :=
  joinBytes [10] frames ++ [10] ++ cast_bytes "] "

/-- The spec-side frame list of one polling sweep. -/
def specSweepFrames (procs : List (String × OutputQueue)) : List (List Nat) :=
  procs.flatMap fun e =>
    match (e.2.retrieve).2 with
    | none => []
    | some l => l.flatMap (specFrames e.1)

/-- One watched process inside a Watch Session:
`{"p": proc, "t": 0, "closed": False}` — here `p` is the process's
`OutputQueue`, the only part of the handle `_do_watch` touches. -/
structure WEntry where
  q : OutputQueue
  t : Nat
  closed : Bool
deriving DecidableEq, Repr

/-- The per-process part of one `_do_watch` sweep (lines 407-417): the
frames contributed and the updated entry (`t` advanced to the snapshot
timestamp, `closed` latched when a CLOSED item was seen). -/
def collectOne (name : String) (e : WEntry) : List (List Nat) × WEntry :=
  match e.q.retrieve with
  | (_, none) => ([], e)
  | (t, some l) =>
    (l.flatMap (itemFramesSrc name),
     { e with t := t,
              closed := e.closed || l.any (fun i => i.type == OutputQueue.CLOSED) })

/-- Names pruned after the acknowledgment of a sweep: entries whose
updated `t` is truthy and whose `closed` flag is set (lines 425-435). -/
def closedNow (procs : List (String × WEntry)) : List String :=
  ((procs.map fun e => (e.1, collectOne e.1 e.2)).filter
    (fun x => x.2.2.t != 0 && x.2.2.closed)).map Prod.fst

/-- Outcome of one iteration of the `while True:` loop of `_do_watch`:
either the session returned with a message, or it continues with updated
tracked processes.  Both carry the registry afterwards and the batch sent
during the iteration, if any. -/
inductive WatchOutcome (α : Type) where
  | done (msg : String) (registry : List (String × α)) (sent : Option (List Nat))
  | cont (procs : List (String × WEntry)) (registry : List (String × α))
      (sent : Option (List Nat))
deriving Repr

/-- The `data` list one sweep over the session's entries accumulates. -/
def sweepFramesOf (procs : List (String × WEntry)) : List (List Nat) :=
  (procs.map fun e => (e.1, collectOne e.1 e.2)).flatMap fun x => x.2.1

/-- The session entries after the sweep (each `proc["t"]`/`proc["closed"]`
updated in place). -/
def sweepEntries (procs : List (String × WEntry)) : List (String × WEntry) :=
  (procs.map fun e => (e.1, collectOne e.1 e.2)).map fun x => (x.1, x.2.2)

/-- The post-acknowledgment trim (`if t: proc["p"].remove_output(t)`). -/
def trimEntries (l : List (String × WEntry)) : List (String × WEntry) :=
  l.map fun x =>
    (x.1, if x.2.t != 0 then { x.2 with q := x.2.q.remove x.2.t } else x.2)

/-- One iteration of `_do_watch` (lines 405-441), with the client's
acknowledgment line supplied (`connection.readline()`; the code lowercases
it).  The registry value type is abstract — the iteration only deletes
entries by name. -/
def doWatchStep {α : Type} (procs : List (String × WEntry))
    (registry : List (String × α)) (ack : String) : WatchOutcome α :=
  if (sweepFramesOf procs).isEmpty then .cont procs registry none
  else
    let out := joinBytes [10] (sweepFramesOf procs ++ [cast_bytes "] "])
    let procs3 := (trimEntries (sweepEntries procs)).filter
      fun x => !((closedNow procs).contains x.1)
    let registry1 := registry.filter fun x => !((closedNow procs).contains x.1)
    if procs3.isEmpty then .done "Nothing left to watch" registry1 (some out)
    else if ack.toLower == "q" then .done "Stopped watching" registry1 (some out)
    else .cont procs3 registry1 (some out)

/-- Command `watch_command` (lines 389-398) up to entering `_do_watch`: given the
wildcard-matched processes (each abstracted to its `OutputQueue`), either
the immediate return message when nothing matched (no batch is ever sent),
or the initial session entries and the `Watching n` announcement. -/
def watch_command (matched : List (String × OutputQueue)) :
    Sum String (List (String × WEntry) × List Nat) :=
  if matched.isEmpty then Sum.inl "Nothing to watch"
  else Sum.inr (matched.map (fun e => (e.1, ⟨e.2, 0, false⟩)),
    cast_bytes ("Watching " ++ toString matched.length ++ "\n"))

/-- Claim C8 exactly as stated, third conjunct: whenever a user is
supplied without a group and resolution succeeds, the resolved gid is that
user's primary group. -/
def C8Claim : Prop :=
  ∀ (pwdDb : PwDb) (grpDb : GrDb) (uid : String) (un : Option String)
    (u : Int) (g : Option Int),
    uid ≠ "" →
    resolveIdentity (some pwdDb) (some grpDb) uid "" = .ok (un, some u, g) →
    ∃ e, pwdDb.getpwuid u = some e ∧ g = some e.pw_gid

/-- User database of the C8 counterexample: only root, uid 0, primary
group 0. -/
def rootPwDb : PwDb :=
  ⟨fun n => if n = 0 then some ⟨"root", 0, 0⟩ else none,
   fun s => if s = "root" then some ⟨"root", 0, 0⟩ else none⟩

/-- Group database of the C8 counterexample (no groups needed). -/
def emptyGrDb : GrDb :=
  ⟨fun _ => none, fun _ => none⟩

/-- Registered handle used by the C4/C5 witnesses. -/
def pWeb : Process :=
  ⟨"web", ["run"], [], [], none, false, 0, 1048576, false, 1, .fd 1,
    none, none, none, none⟩

/-- The same configuration after a successful spawn (pid 42, running,
buffer allocated). -/
def pWebStarted : Process :=
  { pWeb with
    pid := 42, running := true,
    output := some (OutputQueue.init 1048576) }

/-- A handle with the same name but a different configuration (shell
flag), used by the C5 witness. -/
def pWebShell : Process :=
  { pWeb with shell := true }

/-- Outcome of the C3 witness run: one stdout chunk `[65]` captured over
two readiness rounds (the second read hits end-of-stream), then CLOSED. -/
def c3res : WatchResult :=
  ⟨⟨[], [],
    ⟨4, [⟨OutputQueue.STDOUT, 1, .obytes [65]⟩, ⟨OutputQueue.CLOSED, 2, .ostatus 0⟩], 1⟩,
    [⟨OutputQueue.STDOUT, 1, .obytes [65]⟩, ⟨OutputQueue.CLOSED, 2, .ostatus 0⟩],
    3⟩, false⟩

/-- Outcome of the C3 counterexample run: stdout hits end-of-stream at
once while stderr still holds an undelivered chunk; the loop exits and
only CLOSED ever reaches the buffer. -/
def c3badRes : WatchResult :=
  ⟨⟨[], [[65]],
    ⟨10, [⟨OutputQueue.CLOSED, 1, .ostatus 0⟩], 0⟩,
    [⟨OutputQueue.CLOSED, 1, .ostatus 0⟩],
    2⟩, false⟩

/-- Outcome of the C10 runs: no capture, so the log holds exactly the
CLOSED event (exit status 7). -/
def c10res : WatchResult :=
  ⟨⟨[], [],
    ⟨0, [⟨OutputQueue.CLOSED, 1, .ostatus 7⟩], 0⟩,
    [⟨OutputQueue.CLOSED, 1, .ostatus 7⟩],
    2⟩, false⟩

-- ===================================================================
-- Theorems
-- ===================================================================

theorem payloadSum_append (a b : List Item) :
    payloadSum (a ++ b) = payloadSum a + payloadSum b := by
  simp [payloadSum]

theorem payloadSum_cons (i : Item) (l : List Item) :
    payloadSum (i :: l) = i.data.len + payloadSum l := by
  simp [payloadSum]

/-- The eviction loop keeps `used = payloadSum q + extra` and stops only
once `used ≤ bufsize` or the deque is exhausted; what survives is a suffix
of the input. -/
theorem evictLoop_spec (bufsize : Int) (extra : Nat) :
    ∀ (q : List Item) (used : Int), used = (payloadSum q : Int) + (extra : Int) →
      (evictLoop bufsize q used).2 =
        (payloadSum (evictLoop bufsize q used).1 : Int) + (extra : Int) ∧
      ((evictLoop bufsize q used).2 ≤ bufsize ∨ (evictLoop bufsize q used).1 = []) ∧
      ∃ k, (evictLoop bufsize q used).1 = q.drop k := by
  intro q
  induction q with
  | nil =>
    intro used h
    refine ⟨by simpa [evictLoop] using h, Or.inr rfl, 0, rfl⟩
  | cons first rest ih =>
    intro used h
    by_cases hlt : bufsize < used
    · have hrec := ih (used - (first.data.len : Int))
        (by rw [payloadSum_cons] at h; push_cast at h ⊢; omega)
      rw [evictLoop, if_pos hlt]
      refine ⟨hrec.1, hrec.2.1, ?_⟩
      obtain ⟨k, hk⟩ := hrec.2.2
      exact ⟨k + 1, by simpa using hk⟩
    · rw [evictLoop, if_neg hlt]
      exact ⟨h, Or.inl (le_of_not_lt hlt), 0, rfl⟩

/-- Whatever the counter value, the eviction loop only ever pops from the
front: its survivor list is a suffix of the input deque. -/
theorem evictLoop_drop (bufsize : Int) :
    ∀ (q : List Item) (used : Int), ∃ k, (evictLoop bufsize q used).1 = q.drop k := by
  intro q
  induction q with
  | nil => intro used; exact ⟨0, rfl⟩
  | cons first rest ih =>
    intro used
    by_cases hlt : bufsize < used
    · obtain ⟨k, hk⟩ := ih (used - (first.data.len : Int))
      rw [evictLoop, if_pos hlt]
      exact ⟨k + 1, by simpa using hk⟩
    · rw [evictLoop, if_neg hlt]
      exact ⟨0, rfl⟩

/-- A suffix of the previous events survives every add (eviction is from
the front, oldest first), with the new event appended at the back. -/
theorem add_drops_front (oq : OutputQueue) (t : Int) (ts : Nat) (d : OData) :
    ∃ k, (oq.add t ts d).q = oq.q.drop k ++ [⟨t, ts, d⟩] := by
  unfold OutputQueue.add
  by_cases h1 : (t != OutputQueue.CLOSED && d.truthy) = true
  · rw [if_pos h1]
    by_cases h2 : oq.bufsize ≤ (d.len : Int)
    · rw [if_pos h2]
      exact ⟨oq.q.length, by simp⟩
    · rw [if_neg h2]
      obtain ⟨k, hk⟩ := evictLoop_drop oq.bufsize oq.q (oq.used + (d.len : Int))
      exact ⟨k, by simp [hk]⟩
  · rw [if_neg h1]
    exact ⟨0, by simp⟩

/-- Splitting a well-formed add call by its event type: CLOSED calls carry
an exit status, STDOUT/STDERR calls carry bytes. -/
theorem AddOp.wf_cases (op : AddOp) (h : op.wf = true) :
    (op.type = OutputQueue.CLOSED ∧ ∃ s, op.data = .ostatus s) ∨
    (op.type ≠ OutputQueue.CLOSED ∧ ∃ bs, op.data = .obytes bs) := by
  unfold AddOp.wf at h
  by_cases ht : op.type = OutputQueue.CLOSED
  · rw [if_pos ht] at h
    rcases hdata : op.data with bs | s | u
    · rw [hdata] at h; exact absurd h (by simp)
    · exact Or.inl ⟨ht, s, rfl⟩
    · rw [hdata] at h; exact absurd h (by simp)
  · rw [if_neg ht] at h
    rcases hdata : op.data with bs | s | u
    · exact Or.inr ⟨ht, bs, rfl⟩
    · rw [hdata] at h; exact absurd h (by simp)
    · rw [hdata] at h; exact absurd h (by simp)

theorem add_bufsize (oq : OutputQueue) (t : Int) (ts : Nat) (d : OData) :
    (oq.add t ts d).bufsize = oq.bufsize := by
  unfold OutputQueue.add
  by_cases h1 : (t != OutputQueue.CLOSED && d.truthy) = true
  · rw [if_pos h1]
    by_cases h2 : oq.bufsize ≤ (d.len : Int)
    · rw [if_pos h2]
    · rw [if_neg h2]
  · rw [if_neg h1]

/-- One well-formed `add` call preserves the maintained state invariant. -/
theorem add_preserves_goodState (oq : OutputQueue) (op : AddOp)
    (hwf : op.wf = true) (hg : goodState oq) :
    goodState (oq.add op.type op.timestamp op.data) := by
  obtain ⟨hsum, hbound⟩ := hg
  unfold OutputQueue.add
  by_cases h1 : (op.type != OutputQueue.CLOSED && op.data.truthy) = true
  · rw [if_pos h1]
    by_cases h2 : oq.bufsize ≤ (op.data.len : Int)
    · rw [if_pos h2]
      refine ⟨by simp [payloadSum], Or.inr ?_⟩
      exact ⟨⟨op.type, op.timestamp, op.data⟩, [], rfl, h2, by simp, rfl⟩
    · rw [if_neg h2]
      have hstart : oq.used + (op.data.len : Int) =
          (payloadSum oq.q : Int) + (op.data.len : Int) := by rw [hsum]
      obtain ⟨he1, he2, -⟩ :=
        evictLoop_spec oq.bufsize op.data.len oq.q (oq.used + (op.data.len : Int)) hstart
      constructor
      · show (evictLoop oq.bufsize oq.q (oq.used + (op.data.len : Int))).2 =
          ((payloadSum ((evictLoop oq.bufsize oq.q (oq.used + (op.data.len : Int))).1 ++
            [⟨op.type, op.timestamp, op.data⟩]) : Nat) : Int)
        rw [payloadSum_append, he1]
        push_cast
        simp [payloadSum]
      · left
        show (evictLoop oq.bufsize oq.q (oq.used + (op.data.len : Int))).2 ≤ oq.bufsize
        rcases he2 with h | h
        · exact h
        · rw [he1, h]
          simp [payloadSum]
          omega
  · rw [if_neg h1]
    have hlen : op.data.len = 0 := by
      rcases AddOp.wf_cases op hwf with ⟨ht, s, hd⟩ | ⟨ht, bs, hd⟩
      · rw [hd]; rfl
      · rw [hd]
        have : op.data.truthy = false := by
          by_cases htr : op.data.truthy = true
          · exact absurd (by simp [ht, htr]) h1
          · simpa using htr
        rw [hd] at this
        simp [OData.truthy] at this
        simp [OData.len, this]
    constructor
    · rw [payloadSum_append, payloadSum_cons]
      push_cast
      rw [hsum]
      simp [payloadSum, hlen]
    · rcases hbound with h | ⟨big, rest, hq, hbig, hrest, hused⟩
      · exact Or.inl h
      · refine Or.inr ⟨big, rest ++ [⟨op.type, op.timestamp, op.data⟩], by rw [hq]; rfl,
          hbig, ?_, hused⟩
        intro x hx
        rcases List.mem_append.mp hx with hx | hx
        · exact hrest x hx
        · rw [List.mem_singleton.mp hx]
          exact hlen

theorem applyOps_goodState (ops : List AddOp) :
    ∀ (oq : OutputQueue), (∀ op ∈ ops, op.wf = true) → goodState oq →
      goodState (oq.applyOps ops) := by
  induction ops with
  | nil => intro oq _ hg; exact hg
  | cons op rest ih =>
    intro oq hwf hg
    exact ih _ (fun o ho => hwf o (List.mem_cons_of_mem _ ho))
      (add_preserves_goodState oq op (hwf op (List.mem_cons_self op rest)) hg)

theorem applyOps_bufsize (ops : List AddOp) :
    ∀ (oq : OutputQueue), (oq.applyOps ops).bufsize = oq.bufsize := by
  induction ops with
  | nil => intro oq; rfl
  | cons op rest ih =>
    intro oq
    rw [OutputQueue.applyOps, List.foldl_cons]
    exact (ih _).trans (add_bufsize oq op.type op.timestamp op.data)

/-- C1 (amended).  For every `OutputQueue` with `bufsize > 0` and every
well-formed sequence of `add` calls, after each add `_used` equals the
retained payload byte total and `_used ≤ bufsize` — except that an add
whose payload is at least `bufsize` bytes clears the buffer and retains
that one event with `used` equal to its length, an excess that then
persists across subsequent adds carrying no payload bytes (such as the
CLOSED event), during which the oversize event stays at the front;
eviction always removes events from the front, oldest first: each add
leaves a suffix of the previous events followed by the new event. -/
theorem C1_buffer_bound_amended (bufsize : Int) (hb : 0 < bufsize)
    (ops : List AddOp) (hwf : ∀ op ∈ ops, op.wf = true) :
    goodState ((OutputQueue.init bufsize).applyOps ops) ∧
    ((OutputQueue.init bufsize).applyOps ops).bufsize = bufsize ∧
    ∀ (oq : OutputQueue) (t : Int) (ts : Nat) (d : OData),
      ∃ k, (oq.add t ts d).q = oq.q.drop k ++ [⟨t, ts, d⟩] := by
  refine ⟨?_, applyOps_bufsize ops (OutputQueue.init bufsize), add_drops_front⟩
  apply applyOps_goodState ops _ hwf
  exact ⟨by simp [OutputQueue.init, payloadSum], Or.inl (le_of_lt hb)⟩

theorem C1_buffer_bound_witness :
    (0 : Int) < 5 ∧ (∀ op ∈ [c1big], op.wf = true) ∧
    goodState ((OutputQueue.init 5).applyOps [c1big]) :=
  ⟨by decide, by decide, (C1_buffer_bound_amended 5 (by decide) [c1big] (by decide)).1⟩

/-- The claim as frozen is false on the code: with `bufsize = 5`, an
oversize 7-byte STDOUT write followed by the CLOSED event leaves
`used = 7 > 5` while the CLOSED add itself has no payload of length
`≥ bufsize` and the buffer retains two events, not one. -/
theorem C1_buffer_bound_counterexample : ¬ C1Claim := by
  intro h
  have h2 := h 5 (by decide) [c1big] c1closed (by decide)
  revert h2
  decide

theorem removeLoop_eq_dropWhile :
    ∀ (q : List Item) (t : Nat),
      removeLoop q t = q.dropWhile (fun i => i.timestamp ≤ t) := by
  intro q t
  induction q with
  | nil => rfl
  | cons f r ih =>
    by_cases h : f.timestamp ≤ t
    · rw [removeLoop, if_pos h, List.dropWhile_cons, if_pos (by simpa using h)]
      exact ih
    · rw [removeLoop, if_neg h, List.dropWhile_cons, if_neg (by simpa using h)]

/-- With non-decreasing timestamps, everything that survives the trim is
strictly newer than the cut timestamp. -/
theorem dropWhile_timestamps_gt (t : Nat) :
    ∀ (q : List Item), q.Chain' (fun a b => a.timestamp ≤ b.timestamp) →
      ∀ i ∈ q.dropWhile (fun i => i.timestamp ≤ t), t < i.timestamp := by
  intro q
  induction q with
  | nil => intro _ i hi; simp at hi
  | cons f r ih =>
    intro hch i hi
    rw [List.dropWhile_cons] at hi
    by_cases h : f.timestamp ≤ t
    · rw [if_pos (by simpa using h)] at hi
      exact ih hch.tail i hi
    · rw [if_neg (by simpa using h)] at hi
      rcases List.mem_cons.mp hi with rfl | hir
      · omega
      · haveI : IsTrans Item (fun a b => a.timestamp ≤ b.timestamp) :=
          ⟨fun a b c h1 h2 => le_trans h1 h2⟩
        have hp := List.chain'_iff_pairwise.mp hch
        have hfb := (List.pairwise_cons.mp hp).1 i hir
        omega

theorem dropWhile_idem (p : Item → Bool) :
    ∀ (l : List Item), (l.dropWhile p).dropWhile p = l.dropWhile p := by
  intro l
  induction l with
  | nil => rfl
  | cons f r ih =>
    rw [List.dropWhile_cons]
    by_cases h : p f
    · rw [if_pos h]; exact ih
    · rw [if_neg h, List.dropWhile_cons, if_neg h]

/-- C2 (confirmed).  On a buffer whose stored events have non-decreasing
timestamps, `remove T` deletes exactly the maximal prefix of events with
timestamp at most `T`, leaves all later events unchanged, and is
idempotent at the same `T`. -/
theorem C2_remove_trim_confirmed (oq : OutputQueue) (T : Nat)
    (hchain : oq.q.Chain' (fun a b => a.timestamp ≤ b.timestamp)) :
    (oq.remove T).q = oq.q.dropWhile (fun i => i.timestamp ≤ T) ∧
    oq.q = oq.q.takeWhile (fun i => i.timestamp ≤ T) ++ (oq.remove T).q ∧
    (∀ i ∈ oq.q.takeWhile (fun i => i.timestamp ≤ T), i.timestamp ≤ T) ∧
    (∀ i ∈ (oq.remove T).q, T < i.timestamp) ∧
    (oq.remove T).remove T = oq.remove T := by
  have hdw : (oq.remove T).q = oq.q.dropWhile (fun i => i.timestamp ≤ T) :=
    removeLoop_eq_dropWhile oq.q T
  refine ⟨hdw, ?_, ?_, ?_, ?_⟩
  · rw [hdw, List.takeWhile_append_dropWhile]
  · intro i hi
    simpa using List.mem_takeWhile_imp hi
  · rw [hdw]
    exact dropWhile_timestamps_gt T oq.q hchain
  · rcases oq with ⟨b, q, u⟩
    simp only [OutputQueue.remove]
    simp only [removeLoop_eq_dropWhile]
    rw [dropWhile_idem]

/-- C4 (confirmed).  When a handle is already registered under the
requested name with a structurally equal configuration (the fields
`Process.beq` compares: name, args, env, rlimits, working dir, shell,
capture modes, buffer capacity, resolved uid/gid), `spawn` invokes no
`Popen`, leaves the registry untouched, and the handle it returns carries
the pid of the first spawn and the same compared configuration. -/
theorem C4_spawn_idempotent_confirmed (p existing : Process)
    (procs : List (String × Process)) (newPid : Nat)
    (hex : lookupProc procs p.name = some existing)
    (heq : p.beq existing = true) :
    (p.spawn procs newPid).createdNew = false ∧
    (p.spawn procs newPid).processes = procs ∧
    ∃ ret, (p.spawn procs newPid).result = .ok ret ∧
      ret.pid = existing.pid ∧ ret.beq existing = true := by
  have h : p.spawn procs newPid = ⟨.ok { p with pid := existing.pid }, procs, false⟩ := by
    unfold Process.spawn
    rw [hex]
    simp [heq]
  rw [h]
  refine ⟨rfl, rfl, { p with pid := existing.pid }, rfl, rfl, ?_⟩
  simpa [Process.beq] using heq

theorem C4_spawn_idempotent_witness :
    lookupProc [("web", pWebStarted)] pWeb.name = some pWebStarted ∧
    pWeb.beq pWebStarted = true ∧
    (pWeb.spawn [("web", pWebStarted)] 99).createdNew = false ∧
    ∃ ret, (pWeb.spawn [("web", pWebStarted)] 99).result = .ok ret ∧
      ret.pid = pWebStarted.pid :=
  ⟨by decide, by decide, by
    obtain ⟨h1, -, -⟩ :=
      C4_spawn_idempotent_confirmed pWeb pWebStarted [("web", pWebStarted)] 99
        (by decide) (by decide)
    exact h1,
   by
    obtain ⟨-, -, ret, hr, hpid, -⟩ :=
      C4_spawn_idempotent_confirmed pWeb pWebStarted [("web", pWebStarted)] 99
        (by decide) (by decide)
    exact ⟨ret, hr, hpid⟩⟩

/-- C5 (confirmed).  When a handle is already registered under the
requested name with a configuration differing in a compared field,
`spawn` raises the name-already-in-use error, invokes no `Popen`, and the
registry — including the existing handle with its running state and
output buffer — is unchanged. -/
theorem C5_spawn_conflict_confirmed (p existing : Process)
    (procs : List (String × Process)) (newPid : Nat)
    (hex : lookupProc procs p.name = some existing)
    (hne : p.beq existing = false) :
    (p.spawn procs newPid).result =
      .error ("Process for " ++ p.name ++ " has already been created - " ++
        existing.str) ∧
    (p.spawn procs newPid).createdNew = false ∧
    (p.spawn procs newPid).processes = procs ∧
    lookupProc (p.spawn procs newPid).processes p.name = some existing := by
  have h : p.spawn procs newPid =
      ⟨.error ("Process for " ++ p.name ++ " has already been created - " ++
        existing.str), procs, false⟩ := by
    unfold Process.spawn
    rw [hex]
    simp [hne]
  rw [h]
  exact ⟨rfl, rfl, rfl, hex⟩

theorem C5_spawn_conflict_witness :
    lookupProc [("web", pWebStarted)] pWebShell.name = some pWebStarted ∧
    pWebShell.beq pWebStarted = false ∧
    (pWebShell.spawn [("web", pWebStarted)] 99).createdNew = false ∧
    (pWebShell.spawn [("web", pWebStarted)] 99).processes = [("web", pWebStarted)] :=
  ⟨by decide, by decide, by
    obtain ⟨-, h2, -, -⟩ :=
      C5_spawn_conflict_confirmed pWebShell pWebStarted [("web", pWebStarted)] 99
        (by decide) (by decide)
    exact h2,
   by
    obtain ⟨-, -, h3, -⟩ :=
      C5_spawn_conflict_confirmed pWebShell pWebStarted [("web", pWebStarted)] 99
        (by decide) (by decide)
    exact h3⟩

/-- C8 (amended).  Identity resolution at creation time: a uid or gid
request on a platform whose user/group database is unavailable fails with
the unsupported-platform error; a numeric or textual identifier unknown to
the database fails with the invalid-identity error; and when a user is
supplied without a group the resolved gid is that user's primary group —
provided the resolved uid is non-zero, for `elif self.uid:` is false at
uid 0 and the gid is then left unset. -/
theorem C8_identity_amended :
    (∀ (uid : String) (grpDb : Option GrDb) (gid : String), uid ≠ "" →
      resolveIdentity none grpDb uid gid =
        .error "uid is not supported on this platform") ∧
    (∀ (pwdDb : PwDb) (grpDb : GrDb) (uid gid : String) (n : Int), uid ≠ "" →
      pyInt uid = some n → pwdDb.getpwuid n = none →
      resolveIdentity (some pwdDb) (some grpDb) uid gid =
        .error (uid ++ " is not a valid user id")) ∧
    (∀ (pwdDb : PwDb) (grpDb : GrDb) (uid gid : String), uid ≠ "" →
      pyInt uid = none → pwdDb.getpwnam uid = none →
      resolveIdentity (some pwdDb) (some grpDb) uid gid =
        .error (uid ++ " is not a valid user name")) ∧
    (∀ (pwdDb : Option PwDb) (gid : String), gid ≠ "" →
      resolveGroup pwdDb none gid none =
        .error "gid is not supported on this platform") ∧
    (∀ (grpDb : GrDb) (pwdDb : Option PwDb) (gid : String) (n : Int), gid ≠ "" →
      pyInt gid = some n → grpDb.getgrgid n = none →
      resolveGroup pwdDb (some grpDb) gid none =
        .error ("No such group: " ++ gid)) ∧
    (∀ (grpDb : GrDb) (pwdDb : Option PwDb) (gid : String), gid ≠ "" →
      pyInt gid = none → grpDb.getgrnam gid = none →
      resolveGroup pwdDb (some grpDb) gid none =
        .error ("No such group: " ++ gid)) ∧
    (∀ (pwdDb : PwDb) (grpDb : Option GrDb) (u : Int) (e : PwEntry), u ≠ 0 →
      pwdDb.getpwuid u = some e →
      resolveGroup (some pwdDb) grpDb "" (some u) = .ok (some e.pw_gid)) ∧
    (∀ (pwdDb : Option PwDb) (grpDb : Option GrDb),
      resolveGroup pwdDb grpDb "" (some 0) = .ok none) := by
  refine ⟨?_, ?_, ?_, ?_, ?_, ?_, ?_, ?_⟩
  · intro uid grpDb gid h
    simp [resolveIdentity, resolveUser, h]
  · intro pwdDb grpDb uid gid n h hn hdb
    simp [resolveIdentity, resolveUser, h, hn, hdb]
  · intro pwdDb grpDb uid gid h hn hdb
    simp [resolveIdentity, resolveUser, h, hn, hdb]
  · intro pwdDb gid h
    simp [resolveGroup, h]
  · intro grpDb pwdDb gid n h hn hdb
    simp [resolveGroup, h, hn, hdb]
  · intro grpDb pwdDb gid h hn hdb
    simp [resolveGroup, h, hn, hdb]
  · intro pwdDb grpDb u e hu hdb
    simp [resolveGroup, hu, hdb]
  · intro pwdDb grpDb
    simp [resolveGroup]

theorem C8_identity_witness :
    ("root" : String) ≠ "" ∧
    resolveIdentity none (some emptyGrDb) "root" "" =
      .error "uid is not supported on this platform" :=
  ⟨by decide, C8_identity_amended.1 "root" (some emptyGrDb) "" (by decide)⟩

/-- The claim as frozen is false on the code: resolving user `"0"`
(root) with no group succeeds but leaves the gid unset instead of root's
primary group, because `elif self.uid:` is false at uid 0. -/
theorem C8_identity_counterexample : ¬ C8Claim := by
  intro h
  obtain ⟨e, he, hg⟩ :=
    h rootPwDb emptyGrDb "0" (some "root") 0 none (by decide) rfl
  exact Option.noConfusion hg

/-- C9 (confirmed).  The buffer-size string parser: a Python-decimal
string maps to that byte count; a decimal with case-insensitive suffix
`k`, `m` or `g` maps to the count times 1024, 1048576 or 1073741824; any
other string (non-numeric value or unrecognized suffix) makes creation
fail. -/
theorem C9_size_string_confirmed :
    (∀ (s : String) (n : Int), pyInt s = some n →
      convert_size_string_to_bytes s = .ok n) ∧
    (∀ (s : String) (n : Int) (c : Char) (f : Int), pyInt s = none →
      pyInt (strInit s) = some n →
      strLast s = some c → suffixFactor c.toLower = some f →
      convert_size_string_to_bytes s = .ok (n * f)) ∧
    (suffixFactor 'k' = some 1024 ∧ suffixFactor 'm' = some 1048576 ∧
      suffixFactor 'g' = some 1073741824 ∧
      ∀ c : Char, c.toLower ∉ (['k', 'm', 'g'] : List Char) →
        suffixFactor c.toLower = none) ∧
    (∀ (s : String), pyInt s = none →
      (pyInt (strInit s) = none ∨
        ∀ c, strLast s = some c → suffixFactor c.toLower = none) →
      ∃ e, convert_size_string_to_bytes s = .error e) := by
  refine ⟨?_, ?_, ⟨by decide, by decide, by decide, ?_⟩, ?_⟩
  · intro s n h
    simp [convert_size_string_to_bytes, h]
  · intro s n c f hnone hinit hlast hfac
    simp [convert_size_string_to_bytes, hnone, hinit, hlast, hfac]
  · intro c hc
    simp only [List.mem_cons, List.not_mem_nil, or_false, not_or] at hc
    obtain ⟨h1, h2, h3⟩ := hc
    simp [suffixFactor, h1, h2, h3]
  · intro s hnone hbad
    rcases hbad with hb | hb
    · exact ⟨"ValueError", by simp [convert_size_string_to_bytes, hnone, hb]⟩
    · cases hinit : pyInt (strInit s) with
      | none =>
        exact ⟨"ValueError", by simp [convert_size_string_to_bytes, hnone, hinit]⟩
      | some n =>
        cases hlast : strLast s with
        | none =>
          exact ⟨"ValueError",
            by simp [convert_size_string_to_bytes, hnone, hinit, hlast]⟩
        | some c =>
          exact ⟨"KeyError",
            by simp [convert_size_string_to_bytes, hnone, hinit, hlast, hb c hlast]⟩

theorem C9_size_string_witness :
    pyInt "2k" = none ∧
    pyInt (strInit "2k") = some 2 ∧
    strLast "2k" = some 'k' ∧
    suffixFactor 'k'.toLower = some 1024 ∧
    convert_size_string_to_bytes "2k" = .ok (2 * 1024) :=
  ⟨rfl, rfl, rfl, rfl,
    C9_size_string_confirmed.2.1 "2k" 2 'k' 1024 rfl rfl rfl rfl⟩

/-- The frames the source emits for one item coincide with the frames the
spec describes for it. -/
theorem itemFramesSrc_eq_specFrames (name : String) (item : Item) :
    itemFramesSrc name item = specFrames name item := by
  have hcl : ("closed" ++ ":" : String) = "closed:" := by decide
  have hout : ("out" ++ ":" : String) = "out:" := by decide
  have herr : ("err" ++ ":" : String) = "err:" := by decide
  unfold itemFramesSrc specFrames specHeader
  by_cases hc : item.type = OutputQueue.CLOSED
  · simp [hc, hcl, OutputQueue.STDOUT, OutputQueue.CLOSED]
  · by_cases ho : item.type = OutputQueue.STDOUT
    · simp [hc, ho, hout, OutputQueue.STDOUT, OutputQueue.CLOSED]
    · simp [hc, ho, herr]

/-- Python `b"\n".join` when the last part is the terminator: join of the front,
a newline, then the terminator. -/
theorem joinBytes_append_last (sep y : List Nat) :
    ∀ (l : List (List Nat)), l ≠ [] →
      joinBytes sep (l ++ [y]) = joinBytes sep l ++ sep ++ y := by
  intro l
  induction l with
  | nil => intro h; exact absurd rfl h
  | cons a rest ih =>
    intro _
    cases rest with
    | nil => simp [joinBytes]
    | cons b rest2 =>
      have h2 := ih (by simp)
      simp only [List.cons_append] at h2 ⊢
      rw [joinBytes, h2, joinBytes]
      simp [List.append_assoc]

/-- The `data` list the source accumulates equals the spec-side frame
list. -/
theorem buildData_eq_spec (procs : List (String × OutputQueue)) :
    buildData procs = specSweepFrames procs := by
  unfold buildData specSweepFrames
  induction procs with
  | nil => rfl
  | cons e rest ih =>
    simp only [List.flatMap_cons]
    rw [ih]
    congr 1
    cases h : (e.2.retrieve).2 with
    | none => rfl
    | some l =>
      rw [show itemFramesSrc e.1 = specFrames e.1 from
        funext (itemFramesSrc_eq_specFrames e.1)]

/-- C6 (confirmed).  Every batch `_do_watch` sends is the newline-join of
its frames followed by the literal terminator line `b"] "`, where a
STDOUT/STDERR event contributes the header
`out|err:name:timestamp:length` followed in the next frame slot by its raw
payload bytes, and a CLOSED event contributes the single frame
`closed:name:timestamp:status`. -/
theorem C6_wire_format_confirmed (procs : List (String × OutputQueue))
    (out : List Nat) (h : doWatchBatch procs = some out) :
    out = specBatch (specSweepFrames procs) := by
  by_cases hd : (buildData procs).isEmpty
  · simp [doWatchBatch, hd] at h
  · simp only [doWatchBatch, hd, Bool.false_eq_true, if_false, Option.some.injEq] at h
    subst h
    unfold specBatch
    rw [← buildData_eq_spec]
    exact joinBytes_append_last [10] (cast_bytes "] ") (buildData procs)
      (by intro hnil; rw [hnil] at hd; exact hd rfl)

theorem C6_wire_format_witness :
    doWatchBatch [("web", c2oq)] =
      some (joinBytes [10] (buildData [("web", c2oq)] ++ [cast_bytes "] "])) ∧
    joinBytes [10] (buildData [("web", c2oq)] ++ [cast_bytes "] "]) =
      specBatch (specSweepFrames [("web", c2oq)]) :=
  ⟨rfl, C6_wire_format_confirmed [("web", c2oq)] _ rfl⟩

/-- Deleting by name from an association list: a name on the deletion
list no longer appears among the keys. -/
theorem not_mem_fst_filter_contains {α : Type} (names : List String)
    (l : List (String × α)) (n : String) (hn : n ∈ names) :
    n ∉ (l.filter fun x => !(names.contains x.1)).map Prod.fst := by
  intro hmem
  obtain ⟨x, hx, hfst⟩ := List.mem_map.mp hmem
  obtain ⟨-, hpred⟩ := List.mem_filter.mp hx
  rw [hfst] at hpred
  simp at hpred
  exact hpred hn

/-- The sweep and the trim keep the entry names unchanged. -/
theorem fst_trim_sweep (procs : List (String × WEntry)) :
    (trimEntries (sweepEntries procs)).map Prod.fst = procs.map Prod.fst := by
  simp [trimEntries, sweepEntries, List.map_map]

/-- C7 (confirmed).  A watch request matching zero processes answers
`Nothing to watch` sending no batch.  In a `_do_watch` iteration that
sent a batch and got the acknowledgment: every tracked process whose
CLOSED event has been observed is deleted from both the session's tracked
set and the shared registry; the session ends with `Nothing left to
watch` exactly when no tracked process remains (all were pruned); it ends
with `Stopped watching` when the acknowledgment lowercases to `q`; any
other acknowledgment continues the session.  An iteration that sent
nothing changes nothing. -/
theorem C7_session_confirmed :
    (watch_command [] = Sum.inl "Nothing to watch") ∧
    (∀ (α : Type) (procs : List (String × WEntry))
      (registry : List (String × α)) (ack : String),
      match doWatchStep procs registry ack with
      | .done msg reg2 sent =>
          sent ≠ none ∧
          (∀ n ∈ closedNow procs, n ∉ reg2.map Prod.fst) ∧
          (msg = "Nothing left to watch" ∨
            (msg = "Stopped watching" ∧ ack.toLower = "q")) ∧
          (msg = "Nothing left to watch" →
            ∀ n ∈ procs.map Prod.fst, n ∈ closedNow procs)
      | .cont procs2 reg2 sent =>
          (sent = none → procs2 = procs ∧ reg2 = registry) ∧
          (sent ≠ none → ack.toLower ≠ "q" ∧ procs2 ≠ [] ∧
            ∀ n ∈ closedNow procs,
              n ∉ procs2.map Prod.fst ∧ n ∉ reg2.map Prod.fst)) := by
  refine ⟨rfl, ?_⟩
  intro α procs registry ack
  simp only [doWatchStep]
  by_cases hd : (sweepFramesOf procs).isEmpty
  · rw [if_pos hd]
    exact ⟨fun _ => ⟨rfl, rfl⟩, fun hne => absurd rfl hne⟩
  · rw [if_neg hd]
    by_cases hempty : ((trimEntries (sweepEntries procs)).filter
        (fun x => !((closedNow procs).contains x.1))).isEmpty
    · rw [if_pos hempty]
      refine ⟨by simp, ?_, Or.inl rfl, ?_⟩
      · intro n hn
        exact not_mem_fst_filter_contains (closedNow procs) registry n hn
      · intro _ n hn
        rw [← fst_trim_sweep procs] at hn
        obtain ⟨x, hx, hfst⟩ := List.mem_map.mp hn
        have hnil := List.isEmpty_iff.mp hempty
        have hall := List.filter_eq_nil_iff.mp hnil x hx
        simp at hall
        rw [← hfst]
        exact hall
    · rw [if_neg hempty]
      by_cases hq : (ack.toLower == "q") = true
      · rw [if_pos hq]
        refine ⟨by simp, ?_, Or.inr ⟨rfl, by simpa using hq⟩, ?_⟩
        · intro n hn
          exact not_mem_fst_filter_contains (closedNow procs) registry n hn
        · intro hmsg
          exact absurd hmsg (by decide)
      · rw [if_neg hq]
        refine ⟨fun hs => absurd hs (by simp), fun _ => ⟨by simpa using hq, ?_, ?_⟩⟩
        · intro h0
          rw [h0] at hempty
          exact hempty rfl
        · intro n hn
          exact ⟨not_mem_fst_filter_contains (closedNow procs) _ n hn,
            not_mem_fst_filter_contains (closedNow procs) registry n hn⟩

theorem C7_session_witness :
    watch_command [] = Sum.inl "Nothing to watch" ∧
    (([] : List (String × WEntry)) = [] ∧ ([] : List (String × Unit)) = []) := by
  refine ⟨C7_session_confirmed.1, ?_⟩
  have h := C7_session_confirmed.2 Unit [] [] "x"
  exact h.1 rfl

theorem payloadsOf_append (ty : Int) (a b : List Item) :
    payloadsOf ty (a ++ b) = payloadsOf ty a ++ payloadsOf ty b := by
  simp [payloadsOf]

theorem payloadsOf_cons_self (ty : Int) (ts : Nat) (bs : List Nat) (l : List Item) :
    payloadsOf ty (⟨ty, ts, .obytes bs⟩ :: l) = bs :: payloadsOf ty l := by
  simp [payloadsOf]

theorem payloadsOf_cons_other (ty : Int) (i : Item) (l : List Item)
    (h : ¬i.type = ty) :
    payloadsOf ty (i :: l) = payloadsOf ty l := by
  simp [payloadsOf, h]

/-- One readiness round: each stream loses a consumed front segment of
its chunk sequence, and exactly those consumed (non-empty) chunks are
appended, in order, as STDOUT/STDERR events. -/
theorem processRound_spec (r : List PipeId) :
    ∀ (st : WatchState) (dp : Bool),
      (∀ c ∈ st.soChunks, c ≠ []) → (∀ c ∈ st.seChunks, c ≠ []) →
      ∃ ko ke newItems,
        (processRound st r dp).1.soChunks = st.soChunks.drop ko ∧
        (processRound st r dp).1.seChunks = st.seChunks.drop ke ∧
        (processRound st r dp).1.log = st.log ++ newItems ∧
        payloadsOf OutputQueue.STDOUT newItems = st.soChunks.take ko ∧
        payloadsOf OutputQueue.STDERR newItems = st.seChunks.take ke ∧
        (∀ i ∈ newItems, i.type = OutputQueue.STDOUT ∨ i.type = OutputQueue.STDERR) := by
  induction r with
  | nil =>
    intro st dp hso hse
    refine ⟨0, 0, [], ?_, ?_, ?_, ?_, ?_, ?_⟩ <;> simp [processRound, payloadsOf]
  | cons p rest ih =>
    intro st dp hso hse
    cases p with
    | pout =>
      cases hch : st.soChunks with
      | nil =>
        have hred : processRound st (PipeId.pout :: rest) dp =
            processRound st rest false := by
          simp [processRound, readPipe, hch]
        rw [hred, ← hch]
        exact ih st false hso hse
      | cons c more =>
        have hc : c ≠ [] := hso c (by rw [hch]; exact List.mem_cons_self c more)
        have hcempty : c.isEmpty = false := by
          cases c with
          | nil => exact absurd rfl hc
          | cons a as => rfl
        have hred : processRound st (PipeId.pout :: rest) dp =
            processRound (addOutput { st with soChunks := more }
              OutputQueue.STDOUT (.obytes c)) rest true := by
          simp [processRound, readPipe, hch, hcempty]
        have hso2 : ∀ x ∈ (addOutput { st with soChunks := more }
            OutputQueue.STDOUT (.obytes c)).soChunks, x ≠ [] := by
          intro x hx
          apply hso
          rw [hch]
          exact List.mem_cons_of_mem c hx
        have hse2 : ∀ x ∈ (addOutput { st with soChunks := more }
            OutputQueue.STDOUT (.obytes c)).seChunks, x ≠ [] := hse
        obtain ⟨ko, ke, items, h1, h2, h3, h4, h5, h6⟩ :=
          ih (addOutput { st with soChunks := more }
            OutputQueue.STDOUT (.obytes c)) true hso2 hse2
        rw [hred]
        refine ⟨ko + 1, ke, ⟨OutputQueue.STDOUT, st.now, .obytes c⟩ :: items,
          ?_, ?_, ?_, ?_, ?_, ?_⟩
        · rw [h1, List.drop_succ_cons]
          rfl
        · rw [h2]
          rfl
        · rw [h3]
          show (st.log ++ [⟨OutputQueue.STDOUT, st.now, .obytes c⟩]) ++ items = _
          simp
        · rw [payloadsOf_cons_self, h4, List.take_succ_cons]
          rfl
        · rw [payloadsOf_cons_other _ _ _
            (by simp [OutputQueue.STDOUT, OutputQueue.STDERR]), h5]
          rfl
        · intro i hi
          rcases List.mem_cons.mp hi with rfl | h
          · exact Or.inl rfl
          · exact h6 i h
    | perr =>
      cases hch : st.seChunks with
      | nil =>
        have hred : processRound st (PipeId.perr :: rest) dp =
            processRound st rest false := by
          simp [processRound, readPipe, hch]
        rw [hred, ← hch]
        exact ih st false hso hse
      | cons c more =>
        have hc : c ≠ [] := hse c (by rw [hch]; exact List.mem_cons_self c more)
        have hcempty : c.isEmpty = false := by
          cases c with
          | nil => exact absurd rfl hc
          | cons a as => rfl
        have hred : processRound st (PipeId.perr :: rest) dp =
            processRound (addOutput { st with seChunks := more }
              OutputQueue.STDERR (.obytes c)) rest true := by
          simp [processRound, readPipe, hch, hcempty]
        have hso2 : ∀ x ∈ (addOutput { st with seChunks := more }
            OutputQueue.STDERR (.obytes c)).soChunks, x ≠ [] := hso
        have hse2 : ∀ x ∈ (addOutput { st with seChunks := more }
            OutputQueue.STDERR (.obytes c)).seChunks, x ≠ [] := by
          intro x hx
          apply hse
          rw [hch]
          exact List.mem_cons_of_mem c hx
        obtain ⟨ko, ke, items, h1, h2, h3, h4, h5, h6⟩ :=
          ih (addOutput { st with seChunks := more }
            OutputQueue.STDERR (.obytes c)) true hso2 hse2
        rw [hred]
        refine ⟨ko, ke + 1, ⟨OutputQueue.STDERR, st.now, .obytes c⟩ :: items,
          ?_, ?_, ?_, ?_, ?_, ?_⟩
        · rw [h1]
          rfl
        · rw [h2, List.drop_succ_cons]
          rfl
        · rw [h3]
          show (st.log ++ [⟨OutputQueue.STDERR, st.now, .obytes c⟩]) ++ items = _
          simp
        · rw [payloadsOf_cons_other _ _ _
            (by simp [OutputQueue.STDOUT, OutputQueue.STDERR]), h4]
          rfl
        · rw [payloadsOf_cons_self, h5, List.take_succ_cons]
          rfl
        · intro i hi
          rcases List.mem_cons.mp hi with rfl | h
          · exact Or.inr rfl
          · exact h6 i h

/-- The whole `while data:` loop enjoys the same invariant as one round:
per stream, a consumed front segment, appended in order. -/
theorem runRounds_spec (sched : List (List PipeId)) :
    ∀ (st : WatchState) (dp : Bool),
      (∀ c ∈ st.soChunks, c ≠ []) → (∀ c ∈ st.seChunks, c ≠ []) →
      ∃ ko ke newItems,
        (runRounds st sched dp).1.soChunks = st.soChunks.drop ko ∧
        (runRounds st sched dp).1.seChunks = st.seChunks.drop ke ∧
        (runRounds st sched dp).1.log = st.log ++ newItems ∧
        payloadsOf OutputQueue.STDOUT newItems = st.soChunks.take ko ∧
        payloadsOf OutputQueue.STDERR newItems = st.seChunks.take ke ∧
        (∀ i ∈ newItems, i.type = OutputQueue.STDOUT ∨ i.type = OutputQueue.STDERR) := by
  induction sched with
  | nil =>
    intro st dp hso hse
    refine ⟨0, 0, [], ?_, ?_, ?_, ?_, ?_, ?_⟩ <;> simp [runRounds, payloadsOf]
  | cons r rs ih =>
    intro st dp hso hse
    cases dp with
    | false =>
      refine ⟨0, 0, [], ?_, ?_, ?_, ?_, ?_, ?_⟩ <;> simp [runRounds, payloadsOf]
    | true =>
      have hred : runRounds st (r :: rs) true =
          runRounds (processRound st r true).1 rs (processRound st r true).2 := by
        simp [runRounds]
      obtain ⟨ko1, ke1, items1, e1, e2, e3, e4, e5, e6⟩ :=
        processRound_spec r st true hso hse
      have hso2 : ∀ c ∈ (processRound st r true).1.soChunks, c ≠ [] := by
        intro c hc
        rw [e1] at hc
        exact hso c (List.mem_of_mem_drop hc)
      have hse2 : ∀ c ∈ (processRound st r true).1.seChunks, c ≠ [] := by
        intro c hc
        rw [e2] at hc
        exact hse c (List.mem_of_mem_drop hc)
      obtain ⟨ko2, ke2, items2, f1, f2, f3, f4, f5, f6⟩ :=
        ih (processRound st r true).1 (processRound st r true).2 hso2 hse2
      rw [hred]
      refine ⟨ko1 + ko2, ke1 + ke2, items1 ++ items2, ?_, ?_, ?_, ?_, ?_, ?_⟩
      · rw [f1, e1, List.drop_drop]
      · rw [f2, e2, List.drop_drop]
      · rw [f3, e3, List.append_assoc]
      · rw [payloadsOf_append, e4, f4, e1, List.take_add]
      · rw [payloadsOf_append, e5, f5, e2, List.take_add]
      · intro i hi
        rcases List.mem_append.mp hi with h | h
        · exact e6 i h
        · exact f6 i h

/-- C3 (amended).  For every finite chunk delivery ending in
end-of-stream and every valid readiness schedule that drives the
`while data:` loop to its exit: the worker appended, per stream and in
observation order, exactly the consumed front segment of that stream's
chunks as STDOUT/STDERR events (pipes are never removed from the wait
set, and the loop can exit with chunks still undelivered on a pipe, as
the counterexample shows); after the loop exactly one CLOSED event
carrying the exit status is appended, last in the log; and `running` is
cleared.  With no captured streams the loop is skipped and only the
CLOSED event is appended. -/
theorem C3_capture_amended (out : Int) (err : ErrSetting)
    (so se : List (List Nat)) (sched : List (List PipeId))
    (bufsize status : Int) (res : WatchResult)
    (hso : ∀ c ∈ so, c ≠ []) (hse : ∀ c ∈ se, c ≠ [])
    (hsched : ∀ r ∈ sched, roundOk (pipesOf out err) r = true)
    (hres : watchModel out err so se sched bufsize status = some res) :
    res.running = false ∧
    (∃ body ts, res.st.log = body ++ [⟨OutputQueue.CLOSED, ts, .ostatus status⟩] ∧
      ∀ i ∈ body, i.type = OutputQueue.STDOUT ∨ i.type = OutputQueue.STDERR) ∧
    (∃ ko, res.st.soChunks = so.drop ko ∧
      payloadsOf OutputQueue.STDOUT res.st.log = so.take ko) ∧
    (∃ ke, res.st.seChunks = se.drop ke ∧
      payloadsOf OutputQueue.STDERR res.st.log = se.take ke) := by
  simp only [watchModel] at hres
  by_cases hp : (pipesOf out err).isEmpty
  · rw [if_pos hp, Option.some.injEq] at hres
    subst hres
    refine ⟨rfl, ⟨[], 1, by simp [addOutput], by simp⟩, ⟨0, rfl, ?_⟩, ⟨0, rfl, ?_⟩⟩
    · show payloadsOf OutputQueue.STDOUT
        ([] ++ [⟨OutputQueue.CLOSED, 1, .ostatus status⟩]) = []
      rw [List.nil_append, payloadsOf_cons_other _ _ _
        (by simp [OutputQueue.STDOUT, OutputQueue.CLOSED])]
      rfl
    · show payloadsOf OutputQueue.STDERR
        ([] ++ [⟨OutputQueue.CLOSED, 1, .ostatus status⟩]) = []
      rw [List.nil_append, payloadsOf_cons_other _ _ _
        (by simp [OutputQueue.STDERR, OutputQueue.CLOSED])]
      rfl
  · rw [if_neg hp] at hres
    by_cases hr : (runRounds ⟨so, se, OutputQueue.init bufsize, [], 1⟩ sched true).2
    · rw [if_pos hr] at hres
      exact absurd hres (by simp)
    · rw [if_neg hr, Option.some.injEq] at hres
      subst hres
      obtain ⟨ko, ke, items, g1, g2, g3, g4, g5, g6⟩ :=
        runRounds_spec sched ⟨so, se, OutputQueue.init bufsize, [], 1⟩ true hso hse
      refine ⟨rfl,
        ⟨items, (runRounds ⟨so, se, OutputQueue.init bufsize, [], 1⟩ sched true).1.now,
          ?_, g6⟩, ⟨ko, ?_, ?_⟩, ⟨ke, ?_, ?_⟩⟩
      · show (runRounds ⟨so, se, OutputQueue.init bufsize, [], 1⟩ sched true).1.log ++
          _ = _
        rw [g3]
        simp
      · exact g1
      · show payloadsOf OutputQueue.STDOUT
          ((runRounds ⟨so, se, OutputQueue.init bufsize, [], 1⟩ sched true).1.log ++
            [⟨OutputQueue.CLOSED, _, .ostatus status⟩]) = _
        rw [payloadsOf_append, g3, payloadsOf_cons_other _ _ _
          (by simp [OutputQueue.STDOUT, OutputQueue.CLOSED])]
        show payloadsOf OutputQueue.STDOUT ([] ++ items) ++
          payloadsOf OutputQueue.STDOUT [] = so.take ko
        rw [List.nil_append]
        rw [show payloadsOf OutputQueue.STDOUT ([] : List Item) = [] from rfl]
        rw [List.append_nil]
        exact g4
      · exact g2
      · show payloadsOf OutputQueue.STDERR
          ((runRounds ⟨so, se, OutputQueue.init bufsize, [], 1⟩ sched true).1.log ++
            [⟨OutputQueue.CLOSED, _, .ostatus status⟩]) = _
        rw [payloadsOf_append, g3, payloadsOf_cons_other _ _ _
          (by simp [OutputQueue.STDERR, OutputQueue.CLOSED])]
        show payloadsOf OutputQueue.STDERR ([] ++ items) ++
          payloadsOf OutputQueue.STDERR [] = se.take ke
        rw [List.nil_append]
        rw [show payloadsOf OutputQueue.STDERR ([] : List Item) = [] from rfl]
        rw [List.append_nil]
        exact g5

theorem C3_capture_witness :
    (∀ c ∈ [[65]], c ≠ ([] : List Nat)) ∧
    (∀ r ∈ [[PipeId.pout], [PipeId.pout]], roundOk (pipesOf 1 (.fd 0)) r = true) ∧
    watchModel 1 (.fd 0) [[65]] [] [[PipeId.pout], [PipeId.pout]] 4 0 = some c3res ∧
    c3res.running = false ∧
    (∃ ko, c3res.st.soChunks = [[65]].drop ko ∧
      payloadsOf OutputQueue.STDOUT c3res.st.log = [[65]].take ko) := by
  refine ⟨by decide, by decide, by decide, ?_, ?_⟩
  · exact (C3_capture_amended 1 (.fd 0) [[65]] [] [[PipeId.pout], [PipeId.pout]] 4 0
      c3res (by decide) (by decide) (by decide) (by decide)).1
  · exact (C3_capture_amended 1 (.fd 0) [[65]] [] [[PipeId.pout], [PipeId.pout]] 4 0
      c3res (by decide) (by decide) (by decide) (by decide)).2.2.1

/-- The claim as frozen is false on the code: with both streams captured,
stdout hitting end-of-stream while the stderr chunk has not yet arrived
makes the `while data:` loop exit (the wait set never shrinks and there
is no drop-one-pipe logic), so the stderr chunk `[65]` is never appended
and the loop terminates although stderr never closed. -/
theorem C3_capture_counterexample : ¬ C3Claim := by
  intro h
  have h2 := h 1 (.fd 1) [] [[65]] [[PipeId.pout]] 10 0 c3badRes
    (by decide) (by decide) (by decide) (by decide)
  exact absurd h2.2.2.2 (by decide)

/-- C10 (amended).  A buffer-size string parsing to 0 forces both capture
flags to 0 regardless of the requested selectors, `Popen` then opens no
capture pipe, the worker's wait set is empty, and no STDOUT/STDERR event
is ever appended — the log holds exactly the single CLOSED event the
worker still appends at process exit. -/
theorem C10_zero_bufsize_amended :
    convert_size_string_to_bytes "0" = .ok 0 ∧
    (∀ (stdoutSel stderrSel : String),
      initOutErr 0 stdoutSel stderrSel = some (0, .fd 0)) ∧
    popenStdoutIsPipe 0 = false ∧
    popenStderrDest (.fd 0) = none ∧
    pipesOf 0 (.fd 0) = [] ∧
    (∀ (so se : List (List Nat)) (sched : List (List PipeId))
      (bufsize status : Int) (res : WatchResult),
      watchModel 0 (.fd 0) so se sched bufsize status = some res →
      (∀ i ∈ res.st.log, i.type = OutputQueue.CLOSED) ∧
      res.st.log = [⟨OutputQueue.CLOSED, 1, .ostatus status⟩]) := by
  refine ⟨rfl, ?_, by decide, by decide, by decide, ?_⟩
  · intro stdoutSel stderrSel
    simp [initOutErr]
  · intro so se sched bufsize status res hres
    simp only [watchModel] at hres
    rw [if_pos (by decide), Option.some.injEq] at hres
    subst hres
    constructor
    · intro i hi
      have hi2 : i ∈ ([] ++ [(⟨OutputQueue.CLOSED, 1, .ostatus status⟩ : Item)]) := hi
      rcases List.mem_singleton.mp (by simpa using hi2) with rfl
      rfl
    · rfl

theorem C10_zero_bufsize_witness :
    watchModel 0 (.fd 0) [] [] [] 0 7 = some c10res ∧
    c10res.st.log = [⟨OutputQueue.CLOSED, 1, .ostatus 7⟩] :=
  ⟨by decide,
    (C10_zero_bufsize_amended.2.2.2.2.2 [] [] [] 0 7 c10res (by decide)).2⟩

/-- The claim as frozen is false on the code: even with both capture
flags forced to 0 the worker thread still runs, waits for the process and
appends the CLOSED output event, so the log is not empty. -/
theorem C10_zero_bufsize_counterexample : ¬ C10Claim := by
  intro h
  have h2 := h "1" "1" (0, .fd 0) (by decide) [] [] [] 0 7 c10res (by decide)
  exact absurd h2 (by decide)

theorem C2_remove_trim_witness :
    List.Chain' (fun a b => a.timestamp ≤ b.timestamp) c2oq.q ∧
    (∀ i ∈ (c2oq.remove 1).q, 1 < i.timestamp) ∧
    (c2oq.remove 1).remove 1 = c2oq.remove 1 := by
  have hch : List.Chain' (fun a b => a.timestamp ≤ b.timestamp) c2oq.q := by
    rw [show c2oq.q = [(⟨OutputQueue.STDOUT, 1, .obytes [65]⟩ : Item),
      ⟨OutputQueue.STDOUT, 3, .obytes [66]⟩] from rfl, List.chain'_cons]
    exact ⟨by decide, List.chain'_singleton _⟩
  refine ⟨hch, ?_, ?_⟩
  · exact (C2_remove_trim_confirmed c2oq 1 hch).2.2.2.1
  · exact (C2_remove_trim_confirmed c2oq 1 hch).2.2.2.2
